import Mathlib

set_option maxHeartbeats 1000000

/-!
Shallow embedding of the ArxivScribe fetch → dedupe → filter → post pipeline.

Each definition mirrors one Python function of the repository:
* `src/arxivscribe/bot/filters.py`      — keyword matching (`KeywordFilter`)
* `src/arxivscribe/arxiv/parser.py`     — entry parsing (`ArxivParser`)
* `src/arxivscribe/arxiv/fetcher.py`    — retry loop and batch fetch (`ArxivFetcher`)
* `src/arxivscribe/bot/digest_manager.py` — the per-channel delivery cycle
* `src/arxivscribe/storage/db.py`       — persistent state (posting records, votes,
  watermark); the posting-record and vote operations are called by the bot and the
  tests but their bodies are not in the provided sources, so they are modelled
  from the specification (marked `Modelled from the spec:`).
* `src/arxivscribe/similarity.py`       — TF-IDF similarity (`PaperSimilarity`)
* `src/arxivscribe/llm/summarizer.py`   — summary generation and cleaning

Machine floats are modelled as real numbers; Python strings as Lean `String`
(`List Char`); network and provider calls as explicit oracles; exceptions as
`Option`/`Except` results.
-/

/-! ### Keyword filter — `src/arxivscribe/bot/filters.py` -/

/-- Python whitespace (`str.strip` / `str.split` with no argument), restricted
to the ASCII range the pipeline's inputs use. -/
def isPyWs (c : Char) : Bool :=
  c = ' ' || c = '\t' || c = '\n' || c = '\r' || c = '\x0b' || c = '\x0c'

/-- ASCII `str.lower` on one character. -/
def pyLowerChar (c : Char) : Char :=
  if 'A' ≤ c ∧ c ≤ 'Z' then Char.ofNat (c.toNat + 32) else c

/-- Python `str.strip()` on a character list. -/
def pyStrip (l : List Char) : List Char :=
  ((l.dropWhile isPyWs).reverse.dropWhile isPyWs).reverse

/-- `KeywordFilter.normalize_text`: `text.lower().strip()`. -/
def normalizeText (text : String) : String :=
  String.mk (pyStrip (text.data.map pyLowerChar))

/-- A regex word character (`\w`) restricted to the ASCII range that the
pipeline's inputs use: `[a-zA-Z0-9_]`. -/
def charIsWord (c : Char) : Bool := c.isAlphanum || c = '_'

/-- Is the character just before position `i` a word character (out of range
counts as non-word)? -/
def wordBefore (text : List Char) (i : Nat) : Bool :=
  match i with
  | 0 => false
  | j + 1 => if h : j < text.length then charIsWord (text.get ⟨j, h⟩) else false

/-- Is the character at position `i` a word character (out of range counts as
non-word)? -/
def wordAt (text : List Char) (i : Nat) : Bool :=
  if h : i < text.length then charIsWord (text.get ⟨i, h⟩) else false

/-- The regex word-boundary assertion `\b` at position `i`. -/
def boundaryAt (text : List Char) (i : Nat) : Bool := wordBefore text i != wordAt text i

/-- Does `kw` occur in `text` starting at position `i`? -/
def occursAt (text kw : List Char) (i : Nat) : Bool := (text.drop i).take kw.length == kw

/-- Python substring containment `keyword in text`. -/
def containsSub (text kw : List Char) : Bool :=
  (List.range (text.length + 1)).any (fun i => occursAt text kw i)

/-- `re.search(r'\b' + re.escape(keyword) + r'\b', text)`: the keyword occurs
with a word boundary on both sides. -/
def fuzzyContains (text kw : List Char) : Bool :=
  (List.range (text.length + 1)).any
    (fun i => occursAt text kw i && boundaryAt text i && boundaryAt text (i + kw.length))

/-- `KeywordFilter.matches_keyword`: both text and keyword are normalized, then
either exact substring containment or word-boundary (fuzzy) matching. -/
def matchesKeyword (text keyword : String) (fuzzy : Bool) : Bool :=
  let t := normalizeText text
  let k := normalizeText keyword
  if !fuzzy then containsSub t.data k.data
  else fuzzyContains t.data k.data

/-- The paper dictionary as used by the pipeline (fetcher, filter, digest,
similarity, summarizer). Fields the parser may leave as Python `None` never
reach this record through those code paths with `None` observable behaviour
other than falsiness, which `""`/`[]` model. -/
structure Paper where
  id : String := ""
  title : String := ""
  abstract : String := ""
  authors : List String := []
  published : String := ""
  updated : String := ""
  categories : List String := []
  primaryCategory : String := ""
  url : String := ""
  pdfUrl : String := ""
  summary : String := ""
deriving DecidableEq, Repr

/-- The searchable text of `KeywordFilter.paper_matches_keywords`:
`" ".join([title, abstract, summary, " ".join(categories)])`. -/
def searchableText (p : Paper) : String :=
  String.intercalate " " [p.title, p.abstract, p.summary, String.intercalate " " p.categories]

/-- `KeywordFilter.paper_matches_keywords`: the subset of keywords matching the
paper's searchable text (the Python `set` is modelled as the filtered list;
membership is the set's content). -/
def paperMatchesKeywords (p : Paper) (keywords : List String) (fuzzy : Bool := true) :
    List String :=
  keywords.filter (fun kw => matchesKeyword (searchableText p) kw fuzzy)

/-- `KeywordFilter.filter_papers_by_keywords`: keep the papers whose matched
set is nonempty, paired with that set. -/
def filterPapersByKeywords (papers : List Paper) (keywords : List String)
    (fuzzy : Bool := true) : List (Paper × List String) :=
  papers.filterMap (fun p =>
    let m := paperMatchesKeywords p keywords fuzzy
    if m = [] then none else some (p, m))

/-! ### Response parser — `src/arxivscribe/arxiv/parser.py` -/

/-- The parts of an Atom `<entry>` element that `ArxivParser._parse_entry`
reads. For a child element, the outer `Option` is element presence and the
inner `Option` is its text (`None` for an empty element); for an attribute,
`Option` is attribute presence. -/
structure XmlEntry where
  idElem : Option (Option String) := none
  titleElem : Option (Option String) := none
  summaryElem : Option (Option String) := none
  /-- one value per `<author>`: its `<name>` child (present?, text). -/
  authorElems : List (Option (Option String)) := []
  publishedElem : Option (Option String) := none
  updatedElem : Option (Option String) := none
  /-- one value per `<category>`: its `term` attribute. -/
  categoryTerms : List (Option String) := []
  /-- one value per `<link>`: its `title` and `href` attributes. -/
  links : List (Option String × Option String) := []
  primaryCatElem : Option (Option String) := none
deriving DecidableEq, Repr

/-- The dictionary `_parse_entry` returns. A field holding a Python value that
may be `None` is an `Option String`. -/
structure ParsedPaper where
  id : String
  title : String
  abstract : String
  authors : List (Option String)
  published : Option String
  updated : Option String
  categories : List String
  primaryCategory : Option String
  url : String
  pdfUrl : String
deriving DecidableEq, Repr

/-- Python substring containment on strings. -/
def strContains (text sub : String) : Bool := containsSub text.data sub.data

/-- The raw text of a child element with a default for an absent element;
`none` when the element is present with `None` text. -/
def elemTextD (elem : Option (Option String)) (dflt : String) : Option String :=
  match elem with
  | none => some dflt
  | some t => t

/-- `elem.text.strip() if elem is not None else dflt`: `none` when the element
is present with `None` text (`.strip()` on `None` raises). -/
def strippedTextD (elem : Option (Option String)) (dflt : String) : Option String :=
  match elem with
  | none => some dflt
  | some none => none
  | some (some s) => some (String.mk (pyStrip s.data))

/-- The text value of an element whose text is used unchanged
(`elem.text if elem is not None else ""`); the value itself may be `None`. -/
def rawTextD (elem : Option (Option String)) : Option String :=
  match elem with
  | none => some ""
  | some t => t

/-- `ArxivParser._parse_entry`. The outer `none` is the `except` path (the
entry is skipped): it is reached exactly when `.strip()` or `in` is applied to
a Python `None` text, i.e. when the id, title or summary element is present
but has `None` text. -/
def parseEntry (e : XmlEntry) : Option ParsedPaper :=
  match elemTextD e.idElem "", strippedTextD e.titleElem "Unknown",
        strippedTextD e.summaryElem "" with
  | some arxivUrl, some title, some abstract =>
      some { id :=
               if strContains arxivUrl "/abs/" then (arxivUrl.splitOn "/abs/").getLastD ""
               else "",
             title := title,
             abstract := abstract,
             authors := e.authorElems.filterMap id,
             published := rawTextD e.publishedElem,
             updated := rawTextD e.updatedElem,
             categories := e.categoryTerms.filterMap (fun t =>
               match t with
               | some s => if s = "" then none else some s  -- `if term:` — "" is falsy
               | none => none),
             primaryCategory := match e.primaryCatElem with
               | none => some ""
               | some t => t,
             url := arxivUrl,
             pdfUrl := match e.links.find? (fun l => l.1 = some "pdf") with
               | some l => l.2.getD ""
               | none => "" }
  | _, _, _ => none

/-- `ArxivParser.parse_response`: `none` for the whole document models a parse
failure of the document (yields `[]`); each entry failing `_parse_entry` is
skipped (`if paper:`). -/
def parseResponse (doc : Option (List XmlEntry)) : List ParsedPaper :=
  match doc with
  | none => []
  | some entries => entries.filterMap parseEntry

/-- The entry with every optional component absent. -/
def emptyXmlEntry : XmlEntry := {}

/-- C8 counterexample: the claim says a missing title element defaults to the
empty string, but `_parse_entry` defaults the title to `"Unknown"`. -/
theorem claim_C8_counterexample :
    (parseEntry emptyXmlEntry).map ParsedPaper.title = some "Unknown" ∧
    (parseEntry emptyXmlEntry).map ParsedPaper.title ≠ some "" := by
  decide

/-- C8 (amended): for every entry, each optional component that is absent
defaults in the returned record — to `""` for id, abstract, published, updated,
primary_category, url, pdf_url, to `[]` for authors and categories, and to
`"Unknown"` (not `""`) for the title — rather than making the parse of the
entry fail; the parse fails only when the id, title or summary element is
present but has empty text. -/
theorem claim_C8_parser_defaults (e : XmlEntry) :
    (e.idElem ≠ some none → e.titleElem ≠ some none → e.summaryElem ≠ some none →
      (parseEntry e).isSome = true) ∧
    (∀ p, parseEntry e = some p →
      (e.idElem = none → p.id = "" ∧ p.url = "") ∧
      (e.titleElem = none → p.title = "Unknown") ∧
      (e.summaryElem = none → p.abstract = "") ∧
      (e.authorElems = [] → p.authors = []) ∧
      (e.publishedElem = none → p.published = some "") ∧
      (e.updatedElem = none → p.updated = some "") ∧
      (e.categoryTerms = [] → p.categories = []) ∧
      (e.links = [] → p.pdfUrl = "") ∧
      (e.primaryCatElem = none → p.primaryCategory = some "")) := by
  obtain ⟨i, t, s, au, pub, upd, cats, lks, pc⟩ := e
  rcases i with _ | (_ | i') <;> rcases t with _ | (_ | t') <;> rcases s with _ | (_ | s') <;>
    refine ⟨fun hi ht hs => ?_, fun p hp => ?_⟩ <;>
    simp_all only [parseEntry, elemTextD, strippedTextD, rawTextD, Option.isSome_some,
      Option.some.injEq, reduceCtorEq, ne_eq, not_true_eq_false, not_false_eq_true] <;>
    subst hp <;>
    refine ⟨?_, ?_, ?_, ?_, ?_, ?_, ?_, ?_, ?_⟩ <;> intro h <;> simp_all <;> decide

/-- C8 witness: the fully-absent entry instantiates the amended claim — the
parse succeeds and every defaulted field has the stated value. -/
theorem claim_C8_parser_defaults_witness :
    (parseEntry emptyXmlEntry).isSome = true ∧
    ∀ p, parseEntry emptyXmlEntry = some p → p.id = "" ∧ p.title = "Unknown" := by
  have h := claim_C8_parser_defaults emptyXmlEntry
  refine ⟨h.1 (by decide) (by decide) (by decide), fun p hp => ?_⟩
  have h2 := h.2 p hp
  exact ⟨(h2.1 rfl).1, h2.2.1 rfl⟩

/-! ### Upstream fetcher — `src/arxivscribe/arxiv/fetcher.py` -/

/-- The outcome of one HTTP attempt inside `_request_with_retry`:
a response with a status code and body, a timeout (`asyncio.TimeoutError`),
or a network error (`aiohttp.ClientError`). -/
inductive ReqOutcome where
  | response (status : Nat) (body : String)
  | timeout
  | netError
deriving DecidableEq, Repr

/-- What a run of `_request_with_retry` did: its return value, the number of
loop iterations (attempts) executed, and the backoff sleeps issued, in order. -/
structure RetryTrace where
  result : Option String
  attempts : Nat
  waits : List Nat
deriving DecidableEq, Repr

/-- The `for attempt in range(retries)` loop of `_request_with_retry`, with the
outcome of each attempt given by the oracle `responses`. The loop is driven by
the remaining iteration count `fuel` (initially `retries`, so that
`attempt = retries - fuel` throughout), which makes the recursion structural. -/
def retryLoop (responses : Nat → ReqOutcome) (retries : Nat) :
    Nat → Nat → List Nat → RetryTrace
  | 0, attempt, waits => ⟨none, attempt, waits⟩
  | fuel + 1, attempt, waits =>
      match responses attempt with
      | .response status body =>
          if status = 200 then ⟨some body, attempt + 1, waits⟩
          else if status = 503 then
            retryLoop responses retries fuel (attempt + 1) (waits ++ [2 ^ (attempt + 2)])
          else ⟨none, attempt + 1, waits⟩  -- logged and returned, no retry
      | .timeout => retryLoop responses retries fuel (attempt + 1) (waits ++ [2 ^ attempt])
      | .netError =>
          if attempt < retries - 1 then
            retryLoop responses retries fuel (attempt + 1) (waits ++ [2 ^ attempt])
          else retryLoop responses retries fuel (attempt + 1) waits

/-- `ArxivFetcher._request_with_retry` (default `retries = 3`). -/
def requestWithRetry (responses : Nat → ReqOutcome) (retries : Nat := 3) : RetryTrace :=
  retryLoop responses retries retries 0 []

/-- A transient outcome in the sense of the code: HTTP 503, timeout, or
connection error. -/
def transientOutcome : ReqOutcome → Bool
  | .response status _ => status = 503
  | .timeout => true
  | .netError => true

/-- If the current attempt's outcome is transient, the loop sleeps (except on a
final connection error) and moves to the next attempt. -/
theorem retryLoop_transient_step (responses : Nat → ReqOutcome) (retries fuel a : Nat)
    (w : List Nat) (h : transientOutcome (responses a) = true) :
    ∃ w', retryLoop responses retries (fuel + 1) a w = retryLoop responses retries fuel (a + 1) w' := by
  cases hr : responses a with
  | response status body =>
      refine ⟨w ++ [2 ^ (a + 2)], ?_⟩
      have h503 : status = 503 := by simpa [transientOutcome, hr] using h
      simp [retryLoop, hr, h503]
  | timeout => exact ⟨w ++ [2 ^ a], by simp [retryLoop, hr]⟩
  | netError =>
      by_cases hlt : a < retries - 1
      · exact ⟨w ++ [2 ^ a], by simp [retryLoop, hr, hlt]⟩
      · exact ⟨w, by simp [retryLoop, hr, hlt]⟩

/-- C6 counterexample: the claim says every 5xx status is retried with backoff
up to 3 attempts, but a 500 response is returned after a single attempt with no
retry and no backoff sleep. -/
theorem claim_C6_counterexample :
    requestWithRetry (fun _ => .response 500 "oops") 3 =
      { result := none, attempts := 1, waits := [] } := by
  decide

/-- C6 (amended): transient failures — HTTP 503 throttling, timeout, connection
error — are retried up to the cap of 3 attempts, after which the failure is
surfaced as a `None` result; the backoff sleeps double exponentially
(4, 8, 16 seconds for repeated 503s; 1, 2, 4 for repeated timeouts); any other
non-success HTTP status, including a non-503 5xx as well as a 4xx, fails
immediately after one attempt with no retry. -/
theorem claim_C6_retry_policy (responses : Nat → ReqOutcome) :
    ((∀ i, i < 3 → transientOutcome (responses i) = true) →
      (requestWithRetry responses 3).result = none ∧
      (requestWithRetry responses 3).attempts = 3) ∧
    ((∀ i, i < 3 → ∃ b, responses i = .response 503 b) →
      (requestWithRetry responses 3).waits = [4, 8, 16]) ∧
    ((∀ i, i < 3 → responses i = .timeout) →
      (requestWithRetry responses 3).waits = [1, 2, 4]) ∧
    (∀ status body, responses 0 = .response status body → status ≠ 200 → status ≠ 503 →
      requestWithRetry responses 3 = { result := none, attempts := 1, waits := [] }) := by
  refine ⟨fun h => ?_, fun h => ?_, fun h => ?_, fun status body h h200 h503 => ?_⟩
  · obtain ⟨w1, e1⟩ := retryLoop_transient_step responses 3 2 0 [] (h 0 (by omega))
    obtain ⟨w2, e2⟩ := retryLoop_transient_step responses 3 1 1 w1 (h 1 (by omega))
    obtain ⟨w3, e3⟩ := retryLoop_transient_step responses 3 0 2 w2 (h 2 (by omega))
    have : requestWithRetry responses 3 = ⟨none, 3, w3⟩ := by
      calc requestWithRetry responses 3 = retryLoop responses 3 (2 + 1) 0 [] := rfl
        _ = retryLoop responses 3 (1 + 1) 1 w1 := by simpa using e1
        _ = retryLoop responses 3 (0 + 1) 2 w2 := by simpa using e2
        _ = retryLoop responses 3 0 3 w3 := by simpa using e3
        _ = ⟨none, 3, w3⟩ := rfl
    simp [this]
  · obtain ⟨b0, h0⟩ := h 0 (by omega)
    obtain ⟨b1, h1⟩ := h 1 (by omega)
    obtain ⟨b2, h2⟩ := h 2 (by omega)
    simp [requestWithRetry, retryLoop, h0, h1, h2]
  · have h0 := h 0 (by omega); have h1 := h 1 (by omega); have h2 := h 2 (by omega)
    simp [requestWithRetry, retryLoop, h0, h1, h2]
  · simp [requestWithRetry, retryLoop, h, h200, h503]

/-- C6 witness: the amended policy instantiated on a concrete run of repeated
503 throttling responses and a concrete immediate 404. -/
theorem claim_C6_retry_policy_witness :
    (requestWithRetry (fun _ => .response 503 "busy") 3).attempts = 3 ∧
    (requestWithRetry (fun _ => .response 503 "busy") 3).waits = [4, 8, 16] ∧
    requestWithRetry (fun _ => .response 404 "missing") 3 =
      { result := none, attempts := 1, waits := [] } := by
  refine ⟨((claim_C6_retry_policy (fun _ => .response 503 "busy")).1
            (fun i _ => by decide)).2,
          (claim_C6_retry_policy (fun _ => .response 503 "busy")).2.1
            (fun i _ => ⟨"busy", rfl⟩), ?_⟩
  exact (claim_C6_retry_policy (fun _ => .response 404 "missing")).2.2.2 404 "missing" rfl
    (by decide) (by decide)

/-- The post-fetch date filter inside `fetch_papers`: a paper is dropped only
when it has published info that parses (`datetime.fromisoformat`, modelled by
the oracle `parseDate`) to a time before `since`; an unparsable timestamp
includes the paper. -/
def datePasses (parseDate : String → Option Int) (since : Int) (p : Paper) : Bool :=
  if p.published ≠ "" then
    match parseDate p.published with
    | some t => decide (¬ t < since)
    | none => true  -- if we can't parse, include it
  else true

/-- The inner `for paper in papers` loop of `fetch_papers`: append unseen
papers that pass the date filter, tracking `all_papers` (`acc`) and `seen_ids`
(`seen`). -/
def innerMerge (parseDate : String → Option Int) (since : Int) :
    List Paper → List Paper → List String → List Paper × List String
  | [], acc, seen => (acc, seen)
  | p :: ps, acc, seen =>
      if p.id ∈ seen then innerMerge parseDate since ps acc seen
      else if datePasses parseDate since p then
        innerMerge parseDate since ps (acc ++ [p]) (seen ++ [p.id])
      else innerMerge parseDate since ps acc seen

/-- The outer `for category in categories` loop of `fetch_papers`: each
category's `_fetch_category` call either raised (`Except.error`, caught and
logged, the loop continues) or produced a paper list (`Except.ok`). -/
def catMerge (parseDate : String → Option Int) (since : Int) :
    List (Except String (List Paper)) → List Paper → List String → List Paper
  | [], acc, _ => acc
  | .error _ :: rest, acc, seen => catMerge parseDate since rest acc seen
  | .ok papers :: rest, acc, seen =>
      let r := innerMerge parseDate since papers acc seen
      catMerge parseDate since rest r.1 r.2

/-- `ArxivFetcher.fetch_papers`, given the per-category fetch outcomes. -/
def fetchPapers (parseDate : String → Option Int) (since : Int)
    (results : List (Except String (List Paper))) : List Paper :=
  catMerge parseDate since results [] []

/-- The papers of the successful categories, in category-iteration order. -/
def flattenOks : List (Except String (List Paper)) → List Paper
  | [] => []
  | .error _ :: rest => flattenOks rest
  | .ok papers :: rest => papers ++ flattenOks rest

/-- First-occurrence-wins deduplication by `id`, with an explicit seen set. -/
def dedupFirstAux : List Paper → List String → List Paper
  | [], _ => []
  | p :: ps, seen =>
      if p.id ∈ seen then dedupFirstAux ps seen
      else p :: dedupFirstAux ps (seen ++ [p.id])

/-- First-occurrence-wins deduplication by `id`. -/
def dedupFirst (ps : List Paper) : List Paper := dedupFirstAux ps []

theorem innerMerge_eq_dedup (parseDate : String → Option Int) (since : Int)
    (ps : List Paper) :
    ∀ acc seen, (∀ p ∈ ps, datePasses parseDate since p = true) →
      innerMerge parseDate since ps acc seen =
        (acc ++ dedupFirstAux ps seen, seen ++ (dedupFirstAux ps seen).map Paper.id) := by
  induction ps with
  | nil => intro acc seen _; simp [innerMerge, dedupFirstAux]
  | cons p ps ih =>
      intro acc seen h
      have hp : datePasses parseDate since p = true := h p (by simp)
      have hps : ∀ q ∈ ps, datePasses parseDate since q = true :=
        fun q hq => h q (by simp [hq])
      by_cases hseen : p.id ∈ seen
      · simp [innerMerge, dedupFirstAux, hseen, ih _ _ hps]
      · rw [show innerMerge parseDate since (p :: ps) acc seen
            = innerMerge parseDate since ps (acc ++ [p]) (seen ++ [p.id]) from by
          simp [innerMerge, hseen, hp]]
        rw [ih _ _ hps]
        simp [dedupFirstAux, hseen]

theorem dedupFirstAux_append (xs : List Paper) :
    ∀ ys seen, dedupFirstAux (xs ++ ys) seen =
      dedupFirstAux xs seen ++
        dedupFirstAux ys (seen ++ (dedupFirstAux xs seen).map Paper.id) := by
  induction xs with
  | nil => intro ys seen; simp [dedupFirstAux]
  | cons x xs ih =>
      intro ys seen
      by_cases hseen : x.id ∈ seen
      · simp [dedupFirstAux, hseen, ih]
      · rw [show dedupFirstAux ((x :: xs) ++ ys) seen
            = x :: dedupFirstAux (xs ++ ys) (seen ++ [x.id]) from by
          simp [dedupFirstAux, hseen]]
        rw [ih ys (seen ++ [x.id])]
        simp [dedupFirstAux, hseen]

theorem catMerge_eq_dedup (parseDate : String → Option Int) (since : Int)
    (results : List (Except String (List Paper))) :
    ∀ acc seen, (∀ p ∈ flattenOks results, datePasses parseDate since p = true) →
      catMerge parseDate since results acc seen =
        acc ++ dedupFirstAux (flattenOks results) seen := by
  induction results with
  | nil => intro acc seen _; simp [catMerge, flattenOks, dedupFirstAux]
  | cons r rest ih =>
      intro acc seen h
      cases r with
      | error e => simpa [catMerge, flattenOks] using ih acc seen (by simpa [flattenOks] using h)
      | ok papers =>
          have hpap : ∀ p ∈ papers, datePasses parseDate since p = true :=
            fun p hp => h p (by simp [flattenOks, hp])
          have hrest : ∀ p ∈ flattenOks rest, datePasses parseDate since p = true :=
            fun p hp => h p (by simp [flattenOks, hp])
          simp only [catMerge, innerMerge_eq_dedup parseDate since papers acc seen hpap,
            ih _ _ hrest, flattenOks, dedupFirstAux_append]
          simp

theorem dedupFirstAux_nodup (ps : List Paper) :
    ∀ seen, ((dedupFirstAux ps seen).map Paper.id).Nodup ∧
      ∀ x ∈ (dedupFirstAux ps seen).map Paper.id, x ∉ seen := by
  induction ps with
  | nil => intro seen; simp [dedupFirstAux]
  | cons p ps ih =>
      intro seen
      by_cases hseen : p.id ∈ seen
      · simpa [dedupFirstAux, hseen] using ih seen
      · obtain ⟨h1, h2⟩ := ih (seen ++ [p.id])
        refine ⟨?_, ?_⟩
        · simp only [dedupFirstAux, hseen, if_false, if_neg, List.map_cons, List.nodup_cons]
          exact ⟨fun hmem => by simpa using h2 _ hmem, h1⟩
        · intro x hx
          simp only [dedupFirstAux, hseen, if_false, if_neg, List.map_cons,
            List.mem_cons] at hx
          rcases hx with rfl | hx
          · exact hseen
          · intro hxs
            exact h2 x hx (by simp [hxs])

theorem dedupFirstAux_of_nodup (ps : List Paper) :
    ∀ seen, (ps.map Paper.id).Nodup → (∀ p ∈ ps, p.id ∉ seen) →
      dedupFirstAux ps seen = ps := by
  induction ps with
  | nil => intro seen _ _; simp [dedupFirstAux]
  | cons p ps ih =>
      intro seen hnd hdisj
      have hseen : p.id ∉ seen := hdisj p (by simp)
      simp only [List.map_cons, List.nodup_cons] at hnd
      have : dedupFirstAux ps (seen ++ [p.id]) = ps := by
        refine ih _ hnd.2 fun q hq hmem => ?_
        rcases List.mem_append.mp hmem with hs | hs
        · exact hdisj q (by simp [hq]) hs
        · have hqp : q.id = p.id := by simpa using hs
          apply hnd.1
          rw [← hqp]
          exact List.mem_map_of_mem Paper.id hq
      simp [dedupFirstAux, hseen, this]

theorem catMerge_drop_error (parseDate : String → Option Int) (since : Int) (e : String)
    (pre : List (Except String (List Paper))) :
    ∀ post acc seen, catMerge parseDate since (pre ++ .error e :: post) acc seen =
      catMerge parseDate since (pre ++ post) acc seen := by
  induction pre with
  | nil => intro post acc seen; simp [catMerge]
  | cons r rest ih =>
      intro post acc seen
      cases r with
      | error f => simp [catMerge, ih]
      | ok papers => simp [catMerge, ih]

/-- C3: batch dedup with first occurrence winning. If every fetched paper is
inside the date window (so the date filter drops nothing), the merged result of
`fetch_papers` contains each distinct item id exactly once — also when the same
item is returned under two categories or the same category is listed twice —
and equals the first-occurrence-wins deduplication of the per-category results
in category-iteration order. -/
theorem claim_C3_dedup_first_wins (parseDate : String → Option Int) (since : Int)
    (results : List (Except String (List Paper)))
    (h : ∀ p ∈ flattenOks results, datePasses parseDate since p = true) :
    ((fetchPapers parseDate since results).map Paper.id).Nodup ∧
    fetchPapers parseDate since results = dedupFirst (flattenOks results) := by
  have he : fetchPapers parseDate since results = dedupFirstAux (flattenOks results) [] := by
    simpa [fetchPapers] using catMerge_eq_dedup parseDate since results [] [] h
  exact ⟨he ▸ (dedupFirstAux_nodup (flattenOks results) []).1, he.trans rfl⟩

/-- C3 witness: two categories and a duplicated category sharing an item id.
The shared item appears once and the record kept is the one from the first
category, even though the second category carries a different record under the
same id. -/
theorem claim_C3_dedup_first_wins_witness :
    (∀ p ∈ flattenOks [Except.ok [{ id := "A", title := "first" }, { id := "B" }],
        Except.ok [{ id := "A", title := "second" }, { id := "C" }],
        Except.ok [{ id := "A", title := "first" }, { id := "B" }]],
      datePasses (fun _ => none) 0 p = true) ∧
    fetchPapers (fun _ => none) 0
        [Except.ok [{ id := "A", title := "first" }, { id := "B" }],
         Except.ok [{ id := "A", title := "second" }, { id := "C" }],
         Except.ok [{ id := "A", title := "first" }, { id := "B" }]] =
      [{ id := "A", title := "first" }, { id := "B" }, { id := "C" }] := by
  refine ⟨by decide, ?_⟩
  have h := claim_C3_dedup_first_wins (fun _ => none) 0
    [Except.ok [{ id := "A", title := "first" }, { id := "B" }],
     Except.ok [{ id := "A", title := "second" }, { id := "C" }],
     Except.ok [{ id := "A", title := "first" }, { id := "B" }]] (by decide)
  rw [h.2]
  decide

/-- C4: partial-category failure isolation. A failed category contributes
nothing and never aborts the batch: dropping any `error` entry from the
category outcomes leaves the (total, never-raising) merged result unchanged,
and in the two-category scenario where category A raises and category B
succeeds, the result is exactly B's (deduplicated, in-window) items. -/
theorem claim_C4_failure_isolation (parseDate : String → Option Int) (since : Int) :
    (∀ (e : String) (pre post : List (Except String (List Paper))),
      fetchPapers parseDate since (pre ++ .error e :: post) =
        fetchPapers parseDate since (pre ++ post)) ∧
    (∀ (e : String) (papersB : List Paper),
      ((papersB.map Paper.id).Nodup) →
      (∀ p ∈ papersB, datePasses parseDate since p = true) →
      fetchPapers parseDate since [.error e, .ok papersB] = papersB) := by
  refine ⟨fun e pre post => ?_, fun e papersB hnd hpass => ?_⟩
  · simpa [fetchPapers] using catMerge_drop_error parseDate since e pre post [] []
  · have h1 : fetchPapers parseDate since [.error e, .ok papersB] =
        dedupFirstAux (flattenOks [.error e, .ok papersB]) [] := by
      simpa [fetchPapers] using
        catMerge_eq_dedup parseDate since [.error e, .ok papersB] [] []
          (by simpa [flattenOks] using hpass)
    have h2 : flattenOks [Except.error (α := List Paper) e, .ok papersB] = papersB := by
      simp [flattenOks]
    rw [h1, h2, dedupFirstAux_of_nodup papersB [] hnd (by simp)]

/-- C4 witness: category A raises, category B succeeds — the batch returns
exactly B's items. -/
theorem claim_C4_failure_isolation_witness :
    fetchPapers (fun _ => none) 0
        [Except.error "category A boom", Except.ok [{ id := "B1" }, { id := "B2" }]] =
      [{ id := "B1" }, { id := "B2" }] :=
  (claim_C4_failure_isolation (fun _ => none) 0).2 "category A boom"
    [{ id := "B1" }, { id := "B2" }] (by decide) (by decide)

/-- C7: fuzzy word-boundary keyword matching. For the title
"Attention Mechanisms in Neural Networks" with fuzzy mode on, the matched set
contains `"attention"`; `"attentions"` is not a whole-word match, so it does
not match; text and keyword are lowercased and trimmed before comparison, so an
upper-case padded keyword still matches. -/
theorem claim_C7_fuzzy_word_boundary_matching :
    "attention" ∈ paperMatchesKeywords
      { title := "Attention Mechanisms in Neural Networks" } ["attention", "attentions"] true ∧
    "attentions" ∉ paperMatchesKeywords
      { title := "Attention Mechanisms in Neural Networks" } ["attention", "attentions"] true ∧
    matchesKeyword "Attention Mechanisms in Neural Networks" "  ATTENTION " true = true := by
  decide

/-! ### Persistent state — `src/arxivscribe/storage/db.py`

The bot and the repository's tests call `DatabaseManager.store_paper`,
`is_paper_posted`, `add_vote`, `remove_vote` and `get_vote_summary`, but the
bodies of these methods are not in the provided sources (`db.py` only holds the
local-web variants); they are modelled from the specification below. -/

/-- A posting record: (item_id, destination = (guild, channel), delivery
handle). -/
structure PostRec where
  paperId : String
  guildId : Int
  channelId : Int
  messageId : Nat
deriving DecidableEq, Repr

/-- A vote record: (item_id, voter, destination, kind). -/
structure VoteRec where
  paperId : String
  userId : Int
  guildId : Int
  channelId : Int
  kind : String
deriving DecidableEq, Repr

/-- The database state the delivery cycle and the vote handlers touch. -/
structure DbState where
  posted : List PostRec
  votes : List VoteRec
  lastFetch : Option Int
deriving DecidableEq, Repr

/-- Modelled from the spec: `DatabaseManager.is_paper_posted(paper_id,
guild_id, channel_id)` — "`is_posted(item_id, destination)` must be checked
before any delivery attempt"; true iff a posting record for this (item,
destination) exists. -/
def isPaperPosted (s : DbState) (pid : String) (g c : Int) : Bool :=
  s.posted.any (fun r => r.paperId = pid ∧ r.guildId = g ∧ r.channelId = c)

/-- Modelled from the spec: `DatabaseManager.store_paper(paper, guild_id,
channel_id, message_id)` — upserts the item and records the posting
(item_id, destination, delivery_handle); at most one posting record per
(item_id, destination). -/
def storePaper (s : DbState) (p : Paper) (g c : Int) (msgId : Nat) : DbState :=
  if isPaperPosted s p.id g c then s
  else { s with posted := s.posted ++ [⟨p.id, g, c, msgId⟩] }

/-- Modelled from the spec: `DatabaseManager.add_vote(paper_id, user_id,
guild_id, channel_id, vote_type)` — "record_vote replaces any existing vote of
the same (item, voter, kind) rather than accumulating duplicates". -/
def addVote (s : DbState) (pid : String) (uid g c : Int) (kind : String) : DbState :=
  { s with votes :=
      s.votes.filter (fun v => !(v.paperId = pid ∧ v.userId = uid ∧ v.kind = kind)) ++
        [⟨pid, uid, g, c, kind⟩] }

/-- Modelled from the spec: `DatabaseManager.remove_vote(paper_id, user_id,
vote_type)` — "retract_vote removes it". -/
def removeVote (s : DbState) (pid : String) (uid : Int) (kind : String) : DbState :=
  { s with votes :=
      s.votes.filter (fun v => !(v.paperId = pid ∧ v.userId = uid ∧ v.kind = kind)) }

/-- Modelled from the spec: the `upvotes` entry of
`DatabaseManager.get_vote_summary(paper_id)` — the aggregate count of live
votes of one kind on one item. -/
def voteCount (s : DbState) (pid : String) (kind : String) : Nat :=
  (s.votes.filter (fun v => v.paperId = pid ∧ v.kind = kind)).length

/-! ### Delivery cycle — `src/arxivscribe/bot/digest_manager.py` -/

/-- The inputs of one `run_digest_for_channel` call that come from outside the
database: the channel's subscriptions, the upstream fetch result, the
summarizer and Discord delivery as oracles (`none` models a raised exception,
caught by the per-paper handler), and the cycle's end time for
`update_last_fetch_time`. -/
structure DigestEnv where
  keywords : List String
  fetched : List Paper
  summarize : Paper → Option String
  post : Paper → Option Nat
  now : Int

/-- The body of the per-paper loop of `run_digest_for_channel`: skip if
already posted; summarize; post (message send + voting reactions); store the
posting record; count one. Any oracle failure is the caught exception — the
paper contributes nothing and the loop continues. -/
def processPaper (env : DigestEnv) (g c : Int) (s : DbState) (p : Paper) : DbState × Nat :=
  if isPaperPosted s p.id g c then (s, 0)
  else match env.summarize p with
    | none => (s, 0)
    | some summ =>
      match env.post { p with summary := summ } with
      | none => (s, 0)
      | some msgId => (storePaper s { p with summary := summ } g c msgId, 1)

/-- The `for paper, matched_keywords in filtered_papers` loop, threading the
database state and `posted_count`. -/
def digestLoop (env : DigestEnv) (g c : Int) :
    List (Paper × List String) → DbState → Nat → DbState × Nat
  | [], s, n => (s, n)
  | pm :: rest, s, n =>
      digestLoop env g c rest (processPaper env g c s pm.1).1 (n + (processPaper env g c s pm.1).2)

/-- `DigestManager.run_digest_for_channel`: no subscriptions, an empty fetch or
an empty keyword-filter result each end the cycle with zero posted and no
watermark change; otherwise the per-paper loop runs and only then is the fetch
watermark set to "now". -/
def runDigestForChannel (env : DigestEnv) (g c : Int) (s : DbState) : Nat × DbState :=
  if env.keywords = [] then (0, s)
  else if env.fetched = [] then (0, s)
  else if filterPapersByKeywords env.fetched env.keywords true = [] then (0, s)
  else
    ((digestLoop env g c (filterPapersByKeywords env.fetched env.keywords true) s 0).2,
     { (digestLoop env g c (filterPapersByKeywords env.fetched env.keywords true) s 0).1
        with lastFetch := some env.now })

/-- A paper the second run will skip without effect: it already has a posting
record for this destination, or its summarizer or delivery oracle fails
deterministically. -/
def skipCond (env : DigestEnv) (g c : Int) (s : DbState) (p : Paper) : Prop :=
  isPaperPosted s p.id g c = true ∨ env.summarize p = none ∨
  (∃ m, env.summarize p = some m ∧ env.post { p with summary := m } = none)

theorem isPaperPosted_storePaper_mono (s : DbState) (q : Paper) (g c : Int) (msgId : Nat)
    (pid : String) (g' c' : Int) (h : isPaperPosted s pid g' c' = true) :
    isPaperPosted (storePaper s q g c msgId) pid g' c' = true := by
  unfold storePaper
  split
  · exact h
  · simpa [isPaperPosted, List.any_append] using Or.inl (by simpa [isPaperPosted] using h)

theorem isPaperPosted_processPaper_mono (env : DigestEnv) (g c : Int) (s : DbState)
    (p : Paper) (pid : String) (g' c' : Int) (h : isPaperPosted s pid g' c' = true) :
    isPaperPosted (processPaper env g c s p).1 pid g' c' = true := by
  unfold processPaper
  split
  · exact h
  · split
    · exact h
    · split
      · exact h
      · exact isPaperPosted_storePaper_mono s _ g c _ pid g' c' h

theorem skipCond_processPaper_self (env : DigestEnv) (g c : Int) (s : DbState) (p : Paper) :
    skipCond env g c (processPaper env g c s p).1 p := by
  unfold processPaper
  split
  · exact Or.inl (by assumption)
  · rename_i hpost
    cases hsum : env.summarize p with
    | none => exact Or.inr (Or.inl hsum)
    | some m =>
        cases hsend : env.post { p with summary := m } with
        | none =>
            simp only [hsum, hsend]
            exact Or.inr (Or.inr ⟨m, hsum, hsend⟩)
        | some msgId =>
            simp only [hsum, hsend]
            refine Or.inl ?_
            unfold storePaper
            split
            · simpa using (by assumption : isPaperPosted s p.id g c = true)
            · simp [isPaperPosted, List.any_append]

theorem skipCond_processPaper_mono (env : DigestEnv) (g c : Int) (s : DbState) (p q : Paper)
    (h : skipCond env g c s p) : skipCond env g c (processPaper env g c s q).1 p := by
  rcases h with h | h | h
  · exact Or.inl (isPaperPosted_processPaper_mono env g c s q p.id g c h)
  · exact Or.inr (Or.inl h)
  · exact Or.inr (Or.inr h)

theorem skipCond_digestLoop_mono (env : DigestEnv) (g c : Int)
    (L : List (Paper × List String)) :
    ∀ s n p, skipCond env g c s p → skipCond env g c (digestLoop env g c L s n).1 p := by
  induction L with
  | nil => intro s n p h; exact h
  | cons pm rest ih =>
      intro s n p h
      exact ih _ _ p (skipCond_processPaper_mono env g c s p pm.1 h)

theorem digestLoop_all_skip (env : DigestEnv) (g c : Int)
    (L : List (Paper × List String)) :
    ∀ s n pm, pm ∈ L → skipCond env g c (digestLoop env g c L s n).1 pm.1 := by
  induction L with
  | nil => intro s n pm h; cases h
  | cons q rest ih =>
      intro s n pm h
      rcases List.mem_cons.mp h with rfl | h
      · exact skipCond_digestLoop_mono env g c rest _ _ pm.1
          (skipCond_processPaper_self env g c s pm.1)
      · exact ih _ _ pm h

theorem processPaper_of_skipCond (env : DigestEnv) (g c : Int) (s : DbState) (p : Paper)
    (h : skipCond env g c s p) : processPaper env g c s p = (s, 0) := by
  unfold processPaper
  split
  · rfl
  · rename_i hpost
    rcases h with h | h | ⟨m, hm, hsend⟩
    · exact absurd h hpost
    · simp [h]
    · simp [hm, hsend]

theorem digestLoop_noop (env : DigestEnv) (g c : Int) (L : List (Paper × List String)) :
    ∀ s n, (∀ pm ∈ L, skipCond env g c s pm.1) → digestLoop env g c L s n = (s, n) := by
  induction L with
  | nil => intro s n _; rfl
  | cons pm rest ih =>
      intro s n h
      have h0 : processPaper env g c s pm.1 = (s, 0) :=
        processPaper_of_skipCond env g c s pm.1 (h pm (by simp))
      simp only [digestLoop, h0]
      exact ih s n fun q hq => h q (by simp [hq])

/-- C1: at-most-once delivery per (item, destination). Running the delivery
cycle twice for the same destination with the same upstream items (and the
same deterministic summarizer/delivery oracles) posts nothing on the second
run and leaves the posting records exactly as the first run left them: a paper
with a posting record for this destination is skipped, never re-delivered. -/
theorem claim_C1_at_most_once_delivery (env : DigestEnv) (g c : Int) (s : DbState) :
    (runDigestForChannel env g c (runDigestForChannel env g c s).2).1 = 0 ∧
    (runDigestForChannel env g c (runDigestForChannel env g c s).2).2.posted =
      (runDigestForChannel env g c s).2.posted := by
  unfold runDigestForChannel
  split
  · exact ⟨rfl, rfl⟩
  · split
    · exact ⟨rfl, rfl⟩
    · split
      · exact ⟨rfl, rfl⟩
      · rename_i h1 h2 h3
        set L := filterPapersByKeywords env.fetched env.keywords true with hL
        set r := digestLoop env g c L s 0 with hr
        have hskip : ∀ pm ∈ L, skipCond env g c { r.1 with lastFetch := some env.now } pm.1 := by
          intro pm hm
          have := digestLoop_all_skip env g c L s 0 pm hm
          rw [← hr] at this
          rcases this with h | h | h
          · exact Or.inl (by simpa [isPaperPosted] using h)
          · exact Or.inr (Or.inl h)
          · exact Or.inr (Or.inr h)
        have hnoop := digestLoop_noop env g c L { r.1 with lastFetch := some env.now } 0 hskip
        simp only [← hL, ← hr, hnoop]
        simp

/-- C5: watermark non-advancement on an empty fetch, and single terminal
mutation. A cycle whose upstream fetch returned zero items returns zero and
leaves the whole database state — in particular `last_fetch_time` — unchanged;
in every cycle the watermark is either untouched (cycle ended early) or set
once, to the cycle-end time, after the full per-item batch. -/
theorem claim_C5_watermark_non_advancement :
    (∀ (kws : List String) (sm : Paper → Option String) (po : Paper → Option Nat)
       (now g c : Int) (s : DbState),
      runDigestForChannel ⟨kws, [], sm, po, now⟩ g c s = (0, s)) ∧
    (∀ (env : DigestEnv) (g c : Int) (s : DbState),
      (runDigestForChannel env g c s).2.lastFetch = s.lastFetch ∨
      (runDigestForChannel env g c s).2.lastFetch = some env.now) := by
  constructor
  · intro kws sm po now g c s
    unfold runDigestForChannel
    split
    · rfl
    · rfl
  · intro env g c s
    unfold runDigestForChannel
    split
    · exact Or.inl rfl
    · split
      · exact Or.inl rfl
      · split
        · exact Or.inl rfl
        · exact Or.inr rfl

/-- C2: vote replace semantics. On an item with no live upvotes, recording an
upvote from voter X and recording the same upvote again leaves the aggregate
upvote count at 1 — the second record replaces rather than accumulates — and
retracting the vote removes it, bringing the count back to 0. -/
theorem claim_C2_vote_replace_semantics (s : DbState) (pid : String) (uid g c : Int)
    (h : ∀ v ∈ s.votes, ¬(v.paperId = pid ∧ v.kind = "upvote")) :
    voteCount (addVote (addVote s pid uid g c "upvote") pid uid g c "upvote")
        pid "upvote" = 1 ∧
    voteCount (removeVote (addVote (addVote s pid uid g c "upvote") pid uid g c "upvote")
        pid uid "upvote") pid "upvote" = 0 := by
  have hnil : ∀ (l : List VoteRec), (∀ v ∈ l, ¬(v.paperId = pid ∧ v.kind = "upvote")) →
      l.filter (fun v => v.paperId = pid ∧ v.kind = "upvote") = [] := by
    intro l hl
    refine List.filter_eq_nil_iff.mpr fun v hv => ?_
    simpa using hl v hv
  have hsub : ∀ (l : List VoteRec) (p : VoteRec → Bool),
      (∀ v ∈ l, ¬(v.paperId = pid ∧ v.kind = "upvote")) →
      ∀ v ∈ l.filter p, ¬(v.paperId = pid ∧ v.kind = "upvote") :=
    fun l p hl v hv => hl v (List.mem_of_mem_filter hv)
  constructor
  · simp only [addVote, voteCount, List.filter_append]
    rw [hnil _ (hsub _ _ (hsub _ _ h))]
    simp
  · simp only [addVote, removeVote, voteCount, List.filter_append, List.filter_filter]
    rw [List.length_eq_zero]
    refine List.append_eq_nil.mpr ⟨List.append_eq_nil.mpr ⟨?_, by simp⟩, by simp⟩
    refine List.filter_eq_nil_iff.mpr fun v hv => ?_
    simp [decide_eq_false (h v hv)]

/-- C2 witness: the replace-then-retract behaviour on a concrete fresh state. -/
theorem claim_C2_vote_replace_semantics_witness :
    voteCount (addVote (addVote ⟨[], [], none⟩ "2301.00001" 111 123 456 "upvote")
        "2301.00001" 111 123 456 "upvote") "2301.00001" "upvote" = 1 ∧
    voteCount (removeVote (addVote (addVote ⟨[], [], none⟩ "2301.00001" 111 123 456 "upvote")
        "2301.00001" 111 123 456 "upvote") "2301.00001" 111 "upvote")
        "2301.00001" "upvote" = 0 :=
  claim_C2_vote_replace_semantics ⟨[], [], none⟩ "2301.00001" 111 123 456 (by decide)

/-! ### Summarizer — `src/arxivscribe/llm/summarizer.py` -/

/-- Python `str.split()` with no argument: split on whitespace runs, dropping
empty pieces. -/
def pySplit : List Char → List (List Char)
  | [] => []
  | c :: rest =>
      if isPyWs c then pySplit rest
      else (c :: rest.takeWhile (fun d => !isPyWs d)) ::
        pySplit (rest.dropWhile (fun d => !isPyWs d))
termination_by l => l.length
decreasing_by
  · simp
  · have h := List.Sublist.length_le (List.dropWhile_sublist (l := rest) (fun d => !isPyWs d))
    simp only [List.length_cons]
    omega

/-- `" ".join(pieces)`. -/
def pyJoinSpace : List (List Char) → List Char
  | [] => []
  | [w] => w
  | w :: ws => w ++ ' ' :: pyJoinSpace ws

/-- `" ".join(summary.split())` — collapse all whitespace runs to single
spaces and strip the ends. -/
def normSpaceJoin (l : List Char) : List Char := pyJoinSpace (pySplit l)

/-- `if len(summary) > 500: summary = summary[:497] + "..."`. -/
def truncate500 (l : List Char) : List Char :=
  if 500 < l.length then l.take 497 ++ ['.', '.', '.'] else l

/-- Python `str.isspace()`: nonempty and all whitespace. -/
def pyIsSpace (l : List Char) : Bool := !l.isEmpty && l.all isPyWs

/-- `Summarizer._clean_summary`: normalize whitespace, truncate to 500
characters, substitute a placeholder for an empty or all-space result. -/
def cleanSummary (s : String) : String :=
  if (truncate500 (normSpaceJoin s.data)).isEmpty ||
      pyIsSpace (truncate500 (normSpaceJoin s.data)) then "No summary available."
  else String.mk (truncate500 (normSpaceJoin s.data))

/-- `SUMMARY_PROMPT.format(title=..., abstract=...)` from
`src/arxivscribe/llm/prompts.py`. -/
def summaryPrompt (title abstract : String) : String :=
  "You are an expert ML research assistant. Write a concise TLDR (2-3 sentences max) for this paper.\n\nRules:\n- Focus on: what problem, what method/approach, key result or finding\n- Be technical but accessible to grad students\n- No filler phrases like \"This paper presents...\" — just state what it does\n- Include quantitative results if mentioned in the abstract\n\nTitle: "
    ++ title ++ "\n\nAbstract: " ++ abstract ++ "\n\nTLDR:"

/-- `Summarizer.summarize` with the provider's `generate` call as an oracle
(`none` models a raised exception, caught by the surrounding handler). -/
def summarize (generate : String → Option String) (p : Paper) : String :=
  if p.title = "" ∨ p.abstract = "" then "Summary unavailable due to missing information."
  else match generate (summaryPrompt p.title p.abstract) with
    | none => "Summary generation failed."
    | some raw => cleanSummary raw

/-- Whitespace-normalized: every whitespace character is a plain space, no two
spaces are adjacent, and the string neither starts nor ends with a space. -/
def wsNormalized (l : List Char) : Prop :=
  (∀ ch ∈ l, isPyWs ch = true → ch = ' ') ∧
  l.Chain' (fun a b => ¬(a = ' ' ∧ b = ' ')) ∧
  l.head? ≠ some ' ' ∧ l.getLast? ≠ some ' '

theorem pySplit_words (l : List Char) :
    ∀ w ∈ pySplit l, w ≠ [] ∧ ∀ ch ∈ w, isPyWs ch = false := by
  induction l using pySplit.induct with
  | case1 => simp [pySplit]
  | case2 c rest hws ih => simpa [pySplit, hws] using ih
  | case3 c rest hws ih =>
      intro w hw
      rw [pySplit, if_neg hws] at hw
      rcases List.mem_cons.mp hw with rfl | hw
      · refine ⟨by simp, fun ch hch => ?_⟩
        rcases List.mem_cons.mp hch with rfl | hch
        · simpa using hws
        · have := List.mem_takeWhile_imp hch
          simpa using this
      · exact ih w hw

theorem chainNoSpace (l : List Char) (h : ∀ a ∈ l, a ≠ ' ') :
    l.Chain' (fun a b => ¬(a = ' ' ∧ b = ' ')) := by
  induction l with
  | nil => exact List.chain'_nil
  | cons a l ih =>
      refine List.chain'_cons'.mpr ⟨fun y _ hc => ?_, ih fun b hb => h b (by simp [hb])⟩
      exact h a (by simp) hc.1

theorem pyJoinSpace_ne_nil (ws : List (List Char)) (h : ws ≠ [])
    (h2 : ∀ w ∈ ws, w ≠ []) : pyJoinSpace ws ≠ [] := by
  match ws with
  | [] => exact absurd rfl h
  | [w] => simpa [pyJoinSpace] using h2 w (by simp)
  | w :: v :: ws' =>
      have hw : w ≠ [] := h2 w (by simp)
      simp only [pyJoinSpace]
      simp [hw]

theorem space_is_ws : isPyWs ' ' = true := by decide

theorem notSpace_of_notWs {ch : Char} (h : isPyWs ch = false) : ch ≠ ' ' := by
  intro hc
  rw [hc] at h
  exact absurd h (by decide)

theorem wsNormalized_join (ws : List (List Char))
    (h : ∀ w ∈ ws, w ≠ [] ∧ ∀ ch ∈ w, isPyWs ch = false) :
    wsNormalized (pyJoinSpace ws) := by
  induction ws with
  | nil => exact ⟨by simp [pyJoinSpace], by simp [pyJoinSpace], by simp [pyJoinSpace],
      by simp [pyJoinSpace]⟩
  | cons w ws ih =>
      obtain ⟨hwne, hwch⟩ := h w (by simp)
      have hwsp : ∀ ch ∈ w, ch ≠ ' ' := fun ch hch => notSpace_of_notWs (hwch ch hch)
      cases ws with
      | nil =>
          refine ⟨fun ch hch hws => ?_, ?_, ?_, ?_⟩
          · rw [pyJoinSpace] at hch
            exact absurd hws (by simp [hwch ch hch])
          · rw [pyJoinSpace]
            exact chainNoSpace w hwsp
          · rw [pyJoinSpace]
            intro hc
            rcases w with _ | ⟨a, w'⟩
            · simp at hc
            · exact hwsp a (by simp) (by simpa using hc)
          · rw [pyJoinSpace]
            intro hc
            have : ' ' ∈ w := List.mem_of_getLast?_eq_some (by simpa using hc)
            exact hwsp ' ' this rfl
      | cons v ws' =>
          have hrest : ∀ u ∈ v :: ws', u ≠ [] ∧ ∀ ch ∈ u, isPyWs ch = false :=
            fun u hu => h u (by simp [hu])
          have hJ := ih hrest
          have hJne : pyJoinSpace (v :: ws') ≠ [] :=
            pyJoinSpace_ne_nil (v :: ws') (List.cons_ne_nil v ws') (fun u hu => (hrest u hu).1)
          have hjoin : pyJoinSpace (w :: v :: ws') = w ++ ' ' :: pyJoinSpace (v :: ws') := rfl
          rw [hjoin]
          refine ⟨fun ch hch hws => ?_, ?_, ?_, ?_⟩
          · rcases List.mem_append.mp hch with hch | hch
            · exact absurd hws (by simp [hwch ch hch])
            · rcases List.mem_cons.mp hch with rfl | hch
              · rfl
              · exact hJ.1 ch hch hws
          · refine List.chain'_append.mpr ⟨chainNoSpace w hwsp, ?_, ?_⟩
            · refine List.chain'_cons'.mpr ⟨fun y hy hc => ?_, hJ.2.1⟩
              exact hJ.2.2.1 (by rw [hy, hc.2])
            · intro x hx y hy hc
              exact hwsp x (List.mem_of_getLast?_eq_some hx) hc.1
          · rcases w with _ | ⟨a, w'⟩
            · exact absurd rfl hwne
            · simpa using hwsp a (by simp)
          · intro hc
            rw [List.getLast?_append] at hc
            rcases hJl : (pyJoinSpace (v :: ws')).getLast? with _ | z
            · exact hJne (List.getLast?_eq_none_iff.mp hJl)
            · have hcons : (' ' :: pyJoinSpace (v :: ws')).getLast? = some z := by
                rcases hJe : pyJoinSpace (v :: ws') with _ | ⟨j, J'⟩
                · exact absurd hJe hJne
                · rw [hJe] at hJl
                  rw [List.getLast?_cons_cons]
                  exact hJl
              rw [hcons] at hc
              have hor : (some z).or w.getLast? = some z := rfl
              rw [hor] at hc
              exact hJ.2.2.2 (by rw [hJl]; exact hc)

/-- Executable mirror of the no-two-adjacent-spaces condition. -/
def noDoubleSpace : List Char → Bool
  | [] => true
  | [_] => true
  | a :: b :: rest => !(a = ' ' && b = ' ') && noDoubleSpace (b :: rest)

theorem chain'_iff_noDouble (l : List Char) :
    l.Chain' (fun a b => ¬(a = ' ' ∧ b = ' ')) ↔ noDoubleSpace l = true := by
  induction l with
  | nil => simp [noDoubleSpace]
  | cons a l ih =>
      cases l with
      | nil => simp [noDoubleSpace]
      | cons b rest =>
          rw [List.chain'_cons]
          rw [show noDoubleSpace (a :: b :: rest) =
            (!(a = ' ' && b = ' ') && noDoubleSpace (b :: rest)) from rfl]
          rw [Bool.and_eq_true]
          constructor
          · intro hh
            refine ⟨?_, ih.mp hh.2⟩
            have h1 := not_and.mp hh.1
            by_cases ha : a = ' '
            · simp [ha, h1 ha]
            · simp [ha]
          · intro hh
            refine ⟨not_and.mpr fun ha hb => ?_, ih.mpr hh.2⟩
            have h1 := hh.1
            simp [ha, hb] at h1

theorem wsNormalized_truncate (l : List Char) (h : wsNormalized l) :
    wsNormalized (truncate500 l) := by
  unfold truncate500
  split
  · rename_i hlen
    refine ⟨fun ch hch hws => ?_, ?_, ?_, ?_⟩
    · rcases List.mem_append.mp hch with hch | hch
      · exact h.1 ch (List.mem_of_mem_take hch) hws
      · have hd : ch = '.' := by simpa using hch
        rw [hd] at hws
        exact absurd hws (by decide)
    · refine List.chain'_append.mpr ⟨?_, (chain'_iff_noDouble _).mpr (by decide), ?_⟩
      · exact List.Chain'.prefix h.2.1 ( List.take_prefix 497 l)
      · intro x hx y hy hc
        have hd : y = '.' := Eq.symm (by simpa using hy)
        rw [hd] at hc
        exact absurd hc.2 (by decide)
    · rcases l with _ | ⟨a, t⟩
      · simp at hlen
      · rw [show (497 : Nat) = 496 + 1 from rfl, List.take_succ_cons]
        have hh : ((a :: t.take 496) ++ ['.', '.', '.']).head? = some a := rfl
        rw [hh]
        have := h.2.2.1
        simpa using this
    · rw [List.getLast?_append]
      simp
  · exact h

theorem truncate500_length (l : List Char) : (truncate500 l).length ≤ 500 := by
  unfold truncate500
  split
  · rename_i hlen
    simp only [List.length_append, List.length_take, List.length_cons, List.length_nil]
    omega
  · rename_i hlen
    omega

theorem cleanSummary_ok (s : String) :
    cleanSummary s ≠ "" ∧ (cleanSummary s).length ≤ 500 ∧
      wsNormalized (cleanSummary s).data := by
  unfold cleanSummary
  split
  · refine ⟨by decide, by decide, ?_⟩
    unfold wsNormalized
    exact ⟨by decide, (chain'_iff_noDouble _).mpr (by decide), by decide, by decide⟩
  · rename_i h
    have hne : truncate500 (normSpaceJoin s.data) ≠ [] := by
      intro he
      exact h (by rw [he]; rfl)
    refine ⟨fun hs => hne (congrArg String.data hs), ?_, ?_⟩
    · exact truncate500_length (normSpaceJoin s.data)
    · exact wsNormalized_truncate _ (wsNormalized_join _ (pySplit_words s.data))

/-- C10: summarizer totality and output bound. `summarize` is total: a missing
title or abstract yields the fixed placeholder
"Summary unavailable due to missing information.", a raised provider call
yields "Summary generation failed.", and every returned summary is non-empty,
whitespace-normalized and at most 500 characters long. -/
theorem claim_C10_summarizer_totality (generate : String → Option String) (p : Paper) :
    summarize generate p ≠ "" ∧
    (summarize generate p).length ≤ 500 ∧
    wsNormalized (summarize generate p).data ∧
    ((p.title = "" ∨ p.abstract = "") →
      summarize generate p = "Summary unavailable due to missing information.") ∧
    (p.title ≠ "" → p.abstract ≠ "" → generate (summaryPrompt p.title p.abstract) = none →
      summarize generate p = "Summary generation failed.") := by
  unfold summarize
  split
  · rename_i h
    refine ⟨by decide, by decide, ?_, fun _ => rfl, fun h1 h2 _ => absurd h (by simp [h1, h2])⟩
    unfold wsNormalized
    exact ⟨by decide, (chain'_iff_noDouble _).mpr (by decide), by decide, by decide⟩
  · rename_i h
    cases hg : generate (summaryPrompt p.title p.abstract) with
    | none =>
        refine ⟨by decide, by decide, ?_, fun hc => absurd hc h, fun _ _ _ => rfl⟩
        unfold wsNormalized
        exact ⟨by decide, (chain'_iff_noDouble _).mpr (by decide), by decide, by decide⟩
    | some raw =>
        obtain ⟨h1, h2, h3⟩ := cleanSummary_ok raw
        exact ⟨h1, h2, h3, fun hc => absurd hc h,
          fun _ _ hn => Option.noConfusion hn⟩

/-- C10 witness: a provider that always raises yields the failure placeholder
for a complete paper, and a paper with a missing title yields the
missing-information placeholder. -/
theorem claim_C10_summarizer_totality_witness :
    summarize (fun _ => none) { id := "x", title := "T", abstract := "A" } =
      "Summary generation failed." ∧
    summarize (fun _ => none) { id := "x", title := "", abstract := "A" } =
      "Summary unavailable due to missing information." :=
  ⟨(claim_C10_summarizer_totality (fun _ => none)
      { id := "x", title := "T", abstract := "A" }).2.2.2.2 (by decide) (by decide) rfl,
   (claim_C10_summarizer_totality (fun _ => none)
      { id := "x", title := "", abstract := "A" }).2.2.2.1 (Or.inl rfl)⟩

/-! ### TF-IDF similarity — `src/arxivscribe/similarity.py` -/

/-- The stop-word list of `PaperSimilarity.tokenize`. -/
def simStopwords : List String :=
  ["the", "a", "an", "and", "or", "but", "in", "on", "at", "to", "for",
   "of", "with", "by", "from", "is", "are", "was", "were", "be", "been",
   "being", "have", "has", "had", "do", "does", "did", "will", "would",
   "could", "should", "may", "might", "can", "this", "that", "these",
   "those", "it", "its", "we", "our", "their", "they", "which", "what",
   "who", "whom", "how", "when", "where", "than", "then", "also", "as",
   "not", "no", "nor", "so", "if", "each", "every", "all", "both",
   "such", "into", "over", "after", "before", "between", "under", "above",
   "up", "down", "out", "about", "through", "during", "paper", "propose",
   "proposed", "show", "shown", "using", "used", "results", "approach",
   "method", "methods", "based", "model", "models", "new", "novel"]

/-- `[a-z]`. -/
def isLowerAZ (c : Char) : Bool := 'a' ≤ c && c ≤ 'z'

/-- `[a-z0-9]`. -/
def isLowerAlnum (c : Char) : Bool := isLowerAZ c || ('0' ≤ c && c ≤ '9')

/-- The scan of `re.findall(r'[a-z][a-z0-9]+', text)`: leftmost,
non-overlapping, greedy matches. `fuel` starts at the input length and bounds
the recursion (at least one character is consumed per step), keeping the
recursion structural. -/
def findTokensAux : Nat → List Char → List (List Char)
  | 0, _ => []
  | _, [] => []
  | fuel + 1, c :: rest =>
      if isLowerAZ c then
        if rest.takeWhile isLowerAlnum = [] then findTokensAux fuel rest
        else (c :: rest.takeWhile isLowerAlnum) ::
          findTokensAux fuel (rest.dropWhile isLowerAlnum)
      else findTokensAux fuel rest

def findTokens (l : List Char) : List (List Char) := findTokensAux l.length l

/-- `PaperSimilarity.tokenize`: lowercase, alphanumeric runs starting with a
letter, drop stop words and tokens of length at most 2. -/
def tokenize (text : String) : List String :=
  ((findTokens (text.data.map pyLowerChar)).map (fun l => String.mk l)).filter
    (fun t => !simStopwords.contains t && decide (2 < t.length))

/-- Document frequency: the number of corpus documents containing the term
(`df.update(set(doc))`). -/
def docFreq (docs : List (List String)) (t : String) : Nat :=
  (docs.filter (fun d => d.contains t)).length

/-- `idf = math.log(n / (1 + df))`. -/
noncomputable def idf (docs : List (List String)) (t : String) : ℝ :=
  Real.log ((docs.length : ℝ) / (1 + (docFreq docs t : ℝ)))

/-- The TF-IDF dictionary of one document, as a function that is zero outside
the document's terms: `(count / (len(doc) or 1)) * idf[term]`. -/
noncomputable def tfidfWeight (docs : List (List String)) (d : List String)
    (t : String) : ℝ :=
  ((d.count t : ℝ) / (if d.length = 0 then 1 else (d.length : ℝ))) * idf docs t

/-- `PaperSimilarity.cosine_sim` on sparse dictionaries with key sets `ka`,
`kb` and values `a`, `b` (zero off the key set): zero when the key sets are
disjoint or either norm vanishes, else the normalized dot product over the
common keys. -/
noncomputable def cosineSim (ka kb : Finset String) (a b : String → ℝ) : ℝ :=
  if ka ∩ kb = ∅ then 0
  else if Real.sqrt (∑ t ∈ ka, a t ^ 2) = 0 ∨ Real.sqrt (∑ t ∈ kb, b t ^ 2) = 0 then 0
  else (∑ t ∈ ka ∩ kb, a t * b t) /
    (Real.sqrt (∑ t ∈ ka, a t ^ 2) * Real.sqrt (∑ t ∈ kb, b t ^ 2))

/-- `f"{p['title']} {p['abstract']}"` — the text `find_similar` vectorizes. -/
def paperText (p : Paper) : String := p.title ++ " " ++ p.abstract

/-- The token corpus `find_similar` builds: the target first (so IDF reflects
the full set being compared), then every corpus paper. -/
def corpusDocs (target : Paper) (allPapers : List Paper) : List (List String) :=
  tokenize (paperText target) :: allPapers.map (fun p => tokenize (paperText p))

/-- The cosine similarity `find_similar` computes between the target's and one
corpus paper's TF-IDF dictionaries. -/
noncomputable def simScore (target : Paper) (allPapers : List Paper) (p : Paper) : ℝ :=
  cosineSim (tokenize (paperText target)).toFinset (tokenize (paperText p)).toFinset
    (tfidfWeight (corpusDocs target allPapers) (tokenize (paperText target)))
    (tfidfWeight (corpusDocs target allPapers) (tokenize (paperText p)))

/-- The similarity list accumulated by the loop in `find_similar`: skip the
target's own id, keep scores above the 0.01 threshold. -/
noncomputable def simCandidates (target : Paper) (allPapers : List Paper) :
    List (Paper × ℝ) :=
  allPapers.filterMap (fun p =>
    if p.id = target.id then none
    else if 1 / 100 < simScore target allPapers p then
      some (p, simScore target allPapers p)
    else none)

/-- `PaperSimilarity.find_similar`: sort descending by score (stable), keep
the first `top_k`. -/
noncomputable def findSimilar (target : Paper) (allPapers : List Paper) (topK : Nat) :
    List (Paper × ℝ) :=
  if allPapers = [] then []
  else ((simCandidates target allPapers).mergeSort (fun x y => decide (y.2 ≤ x.2))).take topK

theorem tfidfWeight_ne_zero_mem (docs : List (List String)) (d : List String)
    (t : String) (h : tfidfWeight docs d t ≠ 0) : t ∈ d := by
  by_contra hmem
  apply h
  unfold tfidfWeight
  rw [List.count_eq_zero.mpr hmem]
  simp

theorem cosineSim_self (S : Finset String) (v : String → ℝ)
    (h : ∃ t ∈ S, v t ≠ 0) : cosineSim S S v v = 1 := by
  obtain ⟨t, htS, htv⟩ := h
  have hSne : ¬ S ∩ S = ∅ := by
    rw [Finset.inter_self]
    exact Finset.ne_empty_of_mem htS
  have hpos : 0 < ∑ u ∈ S, v u ^ 2 :=
    Finset.sum_pos' (fun u _ => sq_nonneg (v u)) ⟨t, htS, pow_two_pos_of_ne_zero htv⟩
  have hsq : Real.sqrt (∑ u ∈ S, v u ^ 2) ≠ 0 := Real.sqrt_ne_zero'.mpr hpos
  rw [cosineSim, if_neg hSne, if_neg (by push_neg; exact ⟨hsq, hsq⟩)]
  rw [Finset.inter_self, Real.mul_self_sqrt hpos.le,
    show (∑ u ∈ S, v u * v u) = ∑ u ∈ S, v u ^ 2 from
      Finset.sum_congr rfl fun u _ => (pow_two (v u)).symm]
  exact div_self hpos.ne'

/-- C9: TF-IDF self-similarity and self-exclusion. Every result of
`find_similar` has an id different from the target's and a score above the
0.01 threshold; the result has at most `top_k` entries and is ordered
descending by score; and for a corpus paper with the target's exact
title+abstract tokens whose TF-IDF vector is non-zero, the computed cosine
similarity is exactly 1. -/
theorem claim_C9_tfidf_self_similarity (target : Paper) (allPapers : List Paper)
    (topK : Nat) :
    (∀ pr ∈ findSimilar target allPapers topK, pr.1.id ≠ target.id ∧ 1 / 100 < pr.2) ∧
    (findSimilar target allPapers topK).length ≤ topK ∧
    (findSimilar target allPapers topK).Pairwise (fun x y => y.2 ≤ x.2) ∧
    (∀ p ∈ allPapers, tokenize (paperText p) = tokenize (paperText target) →
      (∃ t, tfidfWeight (corpusDocs target allPapers) (tokenize (paperText target)) t ≠ 0) →
      simScore target allPapers p = 1) := by
  have hpart4 : ∀ p ∈ allPapers, tokenize (paperText p) = tokenize (paperText target) →
      (∃ t, tfidfWeight (corpusDocs target allPapers) (tokenize (paperText target)) t ≠ 0) →
      simScore target allPapers p = 1 := by
    intro p _ htok hnz
    obtain ⟨t, ht⟩ := hnz
    unfold simScore
    rw [htok]
    exact cosineSim_self _ _
      ⟨t, List.mem_toFinset.mpr (tfidfWeight_ne_zero_mem _ _ _ ht), ht⟩
  by_cases hA : allPapers = []
  · subst hA
    exact ⟨by simp [findSimilar], by simp [findSimilar], by simp [findSimilar], hpart4⟩
  · have hfs : findSimilar target allPapers topK =
        ((simCandidates target allPapers).mergeSort (fun x y => decide (y.2 ≤ x.2))).take topK := by
      rw [findSimilar, if_neg hA]
    refine ⟨?_, ?_, ?_, hpart4⟩
    · intro pr hpr
      rw [hfs] at hpr
      have h2 := List.mem_of_mem_take hpr
      rw [List.mem_mergeSort] at h2
      obtain ⟨q, _, hfq⟩ := List.mem_filterMap.mp h2
      by_cases hid : q.id = target.id
      · rw [if_pos hid] at hfq
        cases hfq
      · rw [if_neg hid] at hfq
        by_cases hsc : 1 / 100 < simScore target allPapers q
        · rw [if_pos hsc] at hfq
          cases hfq
          exact ⟨hid, hsc⟩
        · rw [if_neg hsc] at hfq
          cases hfq
    · rw [hfs, List.length_take]
      exact min_le_left _ _
    · rw [hfs]
      have htrans : ∀ (a b c : Paper × ℝ),
          (fun x y : Paper × ℝ => decide (y.2 ≤ x.2)) a b = true →
          (fun x y : Paper × ℝ => decide (y.2 ≤ x.2)) b c = true →
          (fun x y : Paper × ℝ => decide (y.2 ≤ x.2)) a c = true := by
        intro a b c hab hbc
        simp only [decide_eq_true_iff] at *
        exact le_trans hbc hab
      have htotal : ∀ (a b : Paper × ℝ),
          ((fun x y : Paper × ℝ => decide (y.2 ≤ x.2)) a b ||
           (fun x y : Paper × ℝ => decide (y.2 ≤ x.2)) b a) = true := by
        intro a b
        rcases le_total b.2 a.2 with h | h <;> simp [h]
      have hsorted := List.sorted_mergeSort htrans htotal (simCandidates target allPapers)
      have hsorted2 : ((simCandidates target allPapers).mergeSort
          (fun x y => decide (y.2 ≤ x.2))).Pairwise (fun x y : Paper × ℝ => y.2 ≤ x.2) :=
        hsorted.imp (fun h => of_decide_eq_true h)
      exact List.Pairwise.sublist (List.take_sublist _ _) hsorted2

/-- C9 witness: a corpus containing an exact copy (different id, identical
title and abstract) of the target — the computed cosine similarity is 1. -/
theorem claim_C9_tfidf_self_similarity_witness :
    simScore { id := "t", title := "graphs", abstract := "spectra" }
      [{ id := "p", title := "graphs", abstract := "spectra" }]
      { id := "p", title := "graphs", abstract := "spectra" } = 1 := by
  refine (claim_C9_tfidf_self_similarity
      { id := "t", title := "graphs", abstract := "spectra" }
      [{ id := "p", title := "graphs", abstract := "spectra" }] 5).2.2.2
    { id := "p", title := "graphs", abstract := "spectra" } (by simp) (by decide)
    ⟨"graphs", ?_⟩
  have hdocs : corpusDocs { id := "t", title := "graphs", abstract := "spectra" }
      [{ id := "p", title := "graphs", abstract := "spectra" }] =
      [["graphs", "spectra"], ["graphs", "spectra"]] := by decide
  have htok : tokenize (paperText { id := "t", title := "graphs", abstract := "spectra" }) =
      ["graphs", "spectra"] := by decide
  rw [hdocs, htok]
  unfold tfidfWeight idf
  have hcount : (["graphs", "spectra"].count "graphs") = 1 := by decide
  have hdf : docFreq [["graphs", "spectra"], ["graphs", "spectra"]] "graphs" = 2 := by decide
  rw [hcount, hdf]
  have hlen : (["graphs", "spectra"] : List String).length = 2 := by decide
  rw [hlen]
  norm_num
